import Mathlib

/-!
# HG-Localization: Bucket-Aware Cache & Synchronization Engine — verification

A shallow embedding of the core engine of the HG-Localization repository
(identity/path resolution, bucket metadata sidecars, cache scanning,
remote index listing, migration, upload orchestration) together with the
frontend API client (`hg_localization_ui/frontend/src/api/client.ts`).

Strings are modelled as `List Char` throughout.
-/

namespace HGLoc

/-- Strings are modelled as lists of characters. -/
abbrev Str := List Char

/-- Convert a literal to the `Str` representation. -/
def strOf (s : String) : Str := s.toList

/-- Uppercase hexadecimal digit for a value `n < 16` (digits `0`-`9`, `A`-`F`),
as produced by percent-encoding and by the bucket fingerprint hash. -/
def hexDigit (n : Nat) : Char :=
  if n < 10 then Char.ofNat (48 + n) else Char.ofNat (55 + n)

/-- Modelled from the spec: the repository's Python core
(`hg_localization/dataset_manager.py`) is not among the source files; the
spec and the in-repo docs only say the bucket fingerprint appends an
8-hex-character hash of the endpoint URL (`<bucket_name>_<hash8(endpoint_url)>`).
We model `hash8` as a concrete deterministic 8-hex-digit hash of the string. -/
def hash8 (s : Str) : Str :=
  let h := s.foldl (fun h c => (h * 31 + c.toNat) % 4294967296) 5381
  ((List.range 8).reverse).map (fun i => hexDigit (h / 16 ^ i % 16))

/-- Asset kind: the engine manages datasets and models. -/
inductive AssetKind
  | dataset
  | model
deriving DecidableEq, Repr

/-- Modelled from the spec: `AssetIdentity` — kind, id (may contain `/`),
optional config, optional revision (§3 of the spec). -/
structure AssetIdentity where
  kind : AssetKind
  id : Str
  config : Option Str
  revision : Option Str
deriving DecidableEq, Repr

/-- Modelled from the spec: `BucketContext` — bucket name, optional endpoint
URL, optional data prefix, credential presence (§3 of the spec). -/
structure BucketContext where
  bucketName : Str
  endpointUrl : Option Str
  dataPfx : Option Str
  hasWriteCredentials : Bool
deriving DecidableEq, Repr

/-- Sentinel used when no config is supplied (`default_config`, per the
README's path-structure section). -/
def configSegment (i : AssetIdentity) : Str :=
  i.config.getD (strOf "default_config")

/-- Sentinel used when no revision is supplied (`default_revision`). -/
def revisionSegment (i : AssetIdentity) : Str :=
  i.revision.getD (strOf "default_revision")

/-- Slashes in the hub id are replaced with underscores for path safety
(README, "Dataset Storage Path Structure"). -/
def sanitizeId (id : Str) : Str :=
  id.map (fun c => if c = '/' then '_' else c)

/-- Store directory per asset kind: `datasets_store` / `models_store`
(README and MODEL_LOCALIZATION.md storage-structure sections). -/
def kindDir : AssetKind → Str
  | AssetKind.dataset => strOf "datasets_store"
  | AssetKind.model => strOf "models_store"

/-- Bucket fingerprint path segment `<bucket_name>_<hash8(endpoint_url)>`. -/
def bucketFingerprint (c : BucketContext) : Str :=
  c.bucketName ++ strOf "_" ++ hash8 (c.endpointUrl.getD [])

/-- Modelled from the spec: the Identity & Path Resolver
(`_get_dataset_path` / the model analogue, absent from the source files).
Per spec §4.1 and the in-repo docs: public assets and the no-context
(local-only) mode use the legacy layout `<kind>/<id>/<config>/<revision>`;
a present, non-public bucket context inserts `by_bucket/<fingerprint>`.
Per MODEL_LOCALIZATION.md's storage-structure section, model paths carry
no config level: `models_store/.../<model_id>/<revision>`. The result is
the list of path segments under the store root. -/
def resolveSegments (i : AssetIdentity) (ctx : Option BucketContext)
    (isPublic : Bool) : List Str :=
  let base : List Str :=
    match i.kind with
    | AssetKind.dataset => [sanitizeId i.id, configSegment i, revisionSegment i]
    | AssetKind.model => [sanitizeId i.id, revisionSegment i]
  match ctx, isPublic with
  | some c, false => kindDir i.kind :: strOf "by_bucket" :: bucketFingerprint c :: base
  | _, _ => kindDir i.kind :: base

/-- The local path as a single string: segments joined by `/`. -/
def resolveLocalPath (i : AssetIdentity) (ctx : Option BucketContext)
    (isPublic : Bool) : Str :=
  (strOf "/").intercalate (resolveSegments i ctx isPublic)

/-- Modelled from the spec: the remote key prefix computed by the Resolver —
`<data_prefix>/<id>/<config>/<revision>` under the bucket root (README,
"Dataset Storage Path Structure"); remote keys carry no `by_bucket`
segment. -/
def resolveRemoteKeySegments (i : AssetIdentity) (c : BucketContext) : List Str :=
  let base : List Str :=
    match i.kind with
    | AssetKind.dataset => [sanitizeId i.id, configSegment i, revisionSegment i]
    | AssetKind.model => [sanitizeId i.id, revisionSegment i]
  (match c.dataPfx with
   | some p => [p]
   | none => []) ++ base

/-- The claimed bucket-scoped path form, written from the claim's words:
`<kind>/by_bucket/<bucket_name>_<hash8(endpoint)>/<id>/<config>/<revision>`
with a config segment between the id and the revision for EVERY kind. -/
def claimedBucketForm (i : AssetIdentity) (c : BucketContext) : List Str :=
  [kindDir i.kind, strOf "by_bucket", bucketFingerprint c,
   sanitizeId i.id, configSegment i, revisionSegment i]

/-- The bucket-scoped path form for models as the in-repo docs give it:
no config level between the id and the revision. -/
def modelBucketForm (i : AssetIdentity) (c : BucketContext) : List Str :=
  [kindDir i.kind, strOf "by_bucket", bucketFingerprint c,
   sanitizeId i.id, revisionSegment i]

/-- A concrete bucket context used in counterexamples and witnesses. -/
def ctx0 : BucketContext :=
  { bucketName := strOf "b1", endpointUrl := some (strOf "http://localhost:9000"),
    dataPfx := none, hasWriteCredentials := true }

/-- A concrete model identity used in counterexamples and witnesses. -/
def modelId0 : AssetIdentity :=
  { kind := AssetKind.model, id := strOf "bert-base-uncased",
    config := none, revision := some (strOf "main") }

/-- A concrete dataset identity used in witnesses. -/
def datasetId0 : AssetIdentity :=
  { kind := AssetKind.dataset, id := strOf "glue/mrpc",
    config := some (strOf "mrpc"), revision := some (strOf "main") }

/-- Modelled from the spec: the bucket metadata sidecar record
(`.hg_localization_bucket_metadata.json`), fields per spec §6 and the
bucket-filtering implementation summary. -/
structure SidecarRecord where
  s3BucketName : Str
  s3EndpointUrl : Option Str
  s3DataPfx : Option Str
  isPublic : Bool
deriving DecidableEq, Repr

/-- A cached asset lives either in the legacy subtree or in the
bucket-scoped subtree. -/
inductive Layout
  | legacy
  | bucketScoped
deriving DecidableEq, Repr

/-- One cached asset discovered by the Cache Scanner: identity, layout it
was found under, and its sidecar record when one is present and parsable. -/
structure CachedAsset where
  ident : AssetIdentity
  layout : Layout
  sidecar : Option SidecarRecord
deriving DecidableEq, Repr

/-- Trailing-slash-insensitive normalization of a configuration string
(spec §3: contexts compare equal as normalized strings). -/
def normalizeSeg (s : Str) : Str :=
  (s.reverse.dropWhile (fun c => c = '/')).reverse

/-- Normalization lifted to an optional field. -/
def normOpt (s : Option Str) : Option Str := s.map normalizeSeg

/-- Modelled from the spec: `_dataset_matches_current_bucket` — exact match
of normalized bucket name, endpoint URL and data prefix between a sidecar
record and the current bucket context. -/
def sidecarMatches (sc : SidecarRecord) (c : BucketContext) : Bool :=
  decide (normalizeSeg sc.s3BucketName = normalizeSeg c.bucketName) &&
  decide (normOpt sc.s3EndpointUrl = normOpt c.endpointUrl) &&
  decide (normOpt sc.s3DataPfx = normOpt c.dataPfx)

/-- Modelled from the spec: the Cache Scanner's inclusion rule under
`filter_by_bucket=true` — include when the sidecar is absent and no context
is configured (local-only assets), or when the sidecar is present and
matches the current context. -/
def includeAsset (ctx : Option BucketContext) (a : CachedAsset) : Bool :=
  match a.sidecar, ctx with
  | none, none => true
  | some sc, some c => sidecarMatches sc c
  | _, _ => false

/-- Modelled from the spec: `list_local_datasets` / the Cache Scanner
(`scan(kind, current_context, filter_by_bucket)`) — walks both subtrees
(the discovered list), filters by the inclusion rule when
`filter_by_bucket` is set, and deduplicates an asset present in both
layouts by dropping a legacy record whenever an included bucket-scoped
record with the same identity exists. -/
def scan (found : List CachedAsset) (ctx : Option BucketContext)
    (filterByBucket : Bool) : List CachedAsset :=
  let included := if filterByBucket then found.filter (fun a => includeAsset ctx a) else found
  included.filter (fun a =>
    decide (a.layout = Layout.bucketScoped) ||
      !(included.any (fun b =>
        decide (b.ident = a.ident ∧ b.layout = Layout.bucketScoped))))

lemma includeAsset_iff (ctx : Option BucketContext) (a : CachedAsset) :
    includeAsset ctx a = true ↔
      (a.sidecar = none ∧ ctx = none) ∨
      (∃ sc c, a.sidecar = some sc ∧ ctx = some c ∧ sidecarMatches sc c = true) := by
  unfold includeAsset
  rcases h1 : a.sidecar with _ | sc <;> rcases h2 : ctx with _ | c <;> simp

lemma nodup_all_eq_singleton {α : Type} {l : List α} {b : α}
    (hn : l.Nodup) (hb : b ∈ l) (hall : ∀ x ∈ l, x = b) : l = [b] := by
  cases l with
  | nil => simp at hb
  | cons x xs =>
    have hx : x = b := hall x (List.mem_cons_self x xs)
    subst hx
    have hxs : xs = [] := by
      rw [List.eq_nil_iff_forall_not_mem]
      intro y hy
      have hyx : y = x := hall y (List.mem_cons_of_mem x hy)
      subst hyx
      exact (List.nodup_cons.mp hn).1 hy
    simp [hxs]

/-- Claim C1, counterexample: for the concrete model identity `modelId0`
cached under the present, non-public context `ctx0`, the Resolver-computed
path is NOT of the claimed form
`<kind>/by_bucket/<bucket>_<hash8>/<id>/<config>/<revision>`:
model paths carry no config segment between the id and the revision
(MODEL_LOCALIZATION.md storage-structure section). -/
theorem C1_model_path_lacks_config_counterexample :
    resolveSegments modelId0 (some ctx0) false ≠ claimedBucketForm modelId0 ctx0 ∧
    resolveSegments modelId0 (some ctx0) false = modelBucketForm modelId0 ctx0 := by
  constructor
  · decide
  · decide

/-- Claim C1, amended: under a present, non-public bucket context the
Resolver-computed path is `<kind>/by_bucket/<bucket_name>_<hash8(endpoint)>/…`;
for datasets a config segment sits between the id and the revision, while
for models the id is followed directly by the revision (no config segment). -/
theorem C1_bucket_scoped_path_form (i : AssetIdentity) (c : BucketContext) :
    (i.kind = AssetKind.dataset →
      resolveSegments i (some c) false = claimedBucketForm i c) ∧
    (i.kind = AssetKind.model →
      resolveSegments i (some c) false = modelBucketForm i c) := by
  constructor
  · intro h
    simp [resolveSegments, claimedBucketForm, h]
  · intro h
    simp [resolveSegments, modelBucketForm, h]

/-- Claim C1, witness: the amended path-form theorem evaluated at the
concrete dataset `datasetId0` and the concrete model `modelId0` under
context `ctx0`. -/
theorem C1_bucket_scoped_path_form_witness :
    resolveSegments datasetId0 (some ctx0) false = claimedBucketForm datasetId0 ctx0 ∧
    resolveSegments modelId0 (some ctx0) false = modelBucketForm modelId0 ctx0 :=
  ⟨(C1_bucket_scoped_path_form datasetId0 ctx0).1 rfl,
   (C1_bucket_scoped_path_form modelId0 ctx0).2 rfl⟩

lemma scan_true_eq (found : List CachedAsset) (ctx : Option BucketContext) :
    scan found ctx true =
      (found.filter (fun a => includeAsset ctx a)).filter (fun a =>
        decide (a.layout = Layout.bucketScoped) ||
          !((found.filter (fun a => includeAsset ctx a)).any (fun b =>
            decide (b.ident = a.ident ∧ b.layout = Layout.bucketScoped)))) := rfl

lemma mem_scan_true (found : List CachedAsset) (ctx : Option BucketContext)
    (a : CachedAsset) :
    a ∈ scan found ctx true ↔
      a ∈ found ∧ includeAsset ctx a = true ∧
      (a.layout = Layout.bucketScoped ∨
        ∀ b ∈ found, includeAsset ctx b = true → b.ident = a.ident →
          b.layout ≠ Layout.bucketScoped) := by
  rw [scan_true_eq]
  simp only [List.mem_filter, Bool.or_eq_true, decide_eq_true_eq,
    Bool.not_eq_true', List.any_eq_false, not_and]
  constructor
  · rintro ⟨⟨haf, hainc⟩, hded⟩
    refine ⟨haf, hainc, ?_⟩
    rcases hded with h | h
    · exact Or.inl h
    · exact Or.inr (fun b hbf hbinc hbi => h b ⟨hbf, hbinc⟩ hbi)
  · rintro ⟨haf, hainc, hded⟩
    refine ⟨⟨haf, hainc⟩, ?_⟩
    rcases hded with h | h
    · exact Or.inl h
    · exact Or.inr (fun b hb => h b hb.1 hb.2)

/-- A concrete sidecar record matching `ctx0`. -/
def sc0 : SidecarRecord :=
  { s3BucketName := strOf "b1",
    s3EndpointUrl := some (strOf "http://localhost:9000"),
    s3DataPfx := none, isPublic := false }

/-- A concrete legacy-layout cached record for `datasetId0`. -/
def legacyRec0 : CachedAsset :=
  { ident := datasetId0, layout := Layout.legacy, sidecar := some sc0 }

/-- A concrete bucket-scoped cached record for `datasetId0`. -/
def bucketRec0 : CachedAsset :=
  { ident := datasetId0, layout := Layout.bucketScoped, sidecar := some sc0 }

/-- Claim C3: with `filter_by_bucket=true`, an asset identity appears in the
scan result iff some discovered record for it satisfies the inclusion rule
((sidecar absent ∧ context absent) ∨ (sidecar present ∧ matches on
normalized bucket name / endpoint URL / data prefix)); and when an asset
exists in both legacy and bucket-scoped form with a matching bucket,
exactly one record — the bucket-scoped copy — is returned. -/
theorem C3_scan_inclusion_and_dedup (found : List CachedAsset)
    (ctx : Option BucketContext) :
    (∀ i : AssetIdentity,
      (∃ a ∈ scan found ctx true, a.ident = i) ↔
      (∃ a ∈ found, a.ident = i ∧
        ((a.sidecar = none ∧ ctx = none) ∨
         (∃ sc c, a.sidecar = some sc ∧ ctx = some c ∧
           sidecarMatches sc c = true)))) ∧
    (∀ (i : AssetIdentity) (l b : CachedAsset),
      found.Nodup → l ∈ found → b ∈ found →
      l.ident = i → b.ident = i →
      l.layout = Layout.legacy → b.layout = Layout.bucketScoped →
      includeAsset ctx l = true → includeAsset ctx b = true →
      (∀ a ∈ found, a.ident = i → a = l ∨ a = b) →
      (scan found ctx true).filter (fun a => decide (a.ident = i)) = [b]) := by
  constructor
  · intro i
    constructor
    · rintro ⟨a, ha, rfl⟩
      rw [mem_scan_true] at ha
      exact ⟨a, ha.1, rfl, (includeAsset_iff ctx a).mp ha.2.1⟩
    · rintro ⟨a, haf, hai, hrule⟩
      have hinc : includeAsset ctx a = true := (includeAsset_iff ctx a).mpr hrule
      by_cases hb : ∃ b ∈ found, includeAsset ctx b = true ∧ b.ident = i ∧
          b.layout = Layout.bucketScoped
      · obtain ⟨b, hbf, hbinc, hbi, hbl⟩ := hb
        exact ⟨b, (mem_scan_true found ctx b).mpr ⟨hbf, hbinc, Or.inl hbl⟩, hbi⟩
      · push_neg at hb
        refine ⟨a, (mem_scan_true found ctx a).mpr ⟨haf, hinc, Or.inr ?_⟩, hai⟩
        intro b hbf hbinc hbi
        exact hb b hbf hbinc (hai ▸ hbi)
  · intro i l b hnd hlf hbf hli hbi hll hbl hlinc hbinc huniq
    have hbscan : b ∈ scan found ctx true :=
      (mem_scan_true found ctx b).mpr ⟨hbf, hbinc, Or.inl hbl⟩
    have hlscan : l ∉ scan found ctx true := by
      intro hmem
      rw [mem_scan_true] at hmem
      rcases hmem.2.2 with h | h
      · rw [hll] at h; exact Layout.noConfusion h
      · exact h b hbf hbinc (hbi.trans hli.symm) hbl
    have hall : ∀ a ∈ (scan found ctx true).filter (fun a => decide (a.ident = i)),
        a = b := by
      intro a ha
      rw [List.mem_filter, decide_eq_true_eq] at ha
      obtain ⟨hascan, hai⟩ := ha
      have haf : a ∈ found := ((mem_scan_true found ctx a).mp hascan).1
      rcases huniq a haf hai with rfl | rfl
      · exact absurd hascan hlscan
      · rfl
    have hnscan : (scan found ctx true).Nodup := by
      rw [scan_true_eq]
      exact (hnd.filter _).filter _
    have hbfil : b ∈ (scan found ctx true).filter (fun a => decide (a.ident = i)) :=
      List.mem_filter.mpr ⟨hbscan, by simp [hbi]⟩
    exact nodup_all_eq_singleton (hnscan.filter _) hbfil hall

/-- Claim C3, witness: a concrete scenario where `datasetId0` exists in
both legacy and bucket-scoped form under the matching context `ctx0`; the
scan returns exactly the bucket-scoped record. -/
theorem C3_scan_inclusion_and_dedup_witness :
    (scan [legacyRec0, bucketRec0] (some ctx0) true).filter
      (fun a => decide (a.ident = datasetId0)) = [bucketRec0] :=
  (C3_scan_inclusion_and_dedup [legacyRec0, bucketRec0] (some ctx0)).2
    datasetId0 legacyRec0 bucketRec0
    (by decide) (by decide) (by decide) rfl rfl rfl rfl
    (by decide) (by decide) (by decide)

/-- Claim C8: the Resolver is a pure, deterministic function — two calls
with equal inputs (identity, context, is_public) yield equal outputs, both
for the local path and for the remote key prefix. -/
theorem C8_resolver_deterministic (i₁ i₂ : AssetIdentity)
    (ctx₁ ctx₂ : Option BucketContext) (c₁ c₂ : BucketContext) (p₁ p₂ : Bool)
    (hi : i₁ = i₂) (hctx : ctx₁ = ctx₂) (hc : c₁ = c₂) (hp : p₁ = p₂) :
    resolveLocalPath i₁ ctx₁ p₁ = resolveLocalPath i₂ ctx₂ p₂ ∧
    resolveRemoteKeySegments i₁ c₁ = resolveRemoteKeySegments i₂ c₂ := by
  subst hi; subst hctx; subst hc; subst hp
  exact ⟨rfl, rfl⟩

/-- Claim C8, witness: determinism of the Resolver evaluated at the
concrete dataset `datasetId0` and context `ctx0`. -/
theorem C8_resolver_deterministic_witness :
    resolveLocalPath datasetId0 (some ctx0) false =
      resolveLocalPath datasetId0 (some ctx0) false ∧
    resolveRemoteKeySegments datasetId0 ctx0 =
      resolveRemoteKeySegments datasetId0 ctx0 :=
  C8_resolver_deterministic datasetId0 datasetId0 (some ctx0) (some ctx0)
    ctx0 ctx0 false false rfl rfl rfl rfl

/-- Outcome of the single GET of the class-level index object.
`success none` models a document that was fetched but is unparsable
(corrupt); `success (some es)` a parsed index (possibly empty);
`notFound` a missing index object; `failure` any other fetch failure. -/
inductive IndexFetch (α : Type)
  | success (parsed : Option (List α))
  | notFound
  | failure
deriving DecidableEq

/-- The three tiers of the remote listing protocol. -/
inductive Tier
  | indexFetch
  | legacyScan
  | publicManifest
deriving DecidableEq, Repr

/-- Result of a remote listing: the entries plus the tiers consulted, in
order. -/
structure ListingOutcome (α : Type) where
  entries : List α
  tiers : List Tier
deriving DecidableEq

/-- Modelled from the spec: `list_s3_datasets` / `list_s3_models`
(absent from the source files; behavior per the S3 performance-improvement
summary and spec §4.4). Tier 1: single fetch of the class-level index; a
parsed index (even an empty one — a valid, non-error state) answers the
listing. Tier 2: full paginated enumeration of the bucket's private
prefix, entered only when the index object is missing, unparsable, or the
fetch failed. Tier 3: the public manifest, consulted only when the scan
tier also yields nothing (`scanOutcome = none`, e.g. no credentials);
a missing/unparsable manifest is treated as empty. -/
def listRemote {α : Type} (f : IndexFetch α) (scanOutcome : Option (List α))
    (manifest : Option (List α)) : ListingOutcome α :=
  match f with
  | IndexFetch.success (some es) => ⟨es, [Tier.indexFetch]⟩
  | _ =>
    match scanOutcome with
    | some es => ⟨es, [Tier.indexFetch, Tier.legacyScan]⟩
    | none => ⟨manifest.getD [],
        [Tier.indexFetch, Tier.legacyScan, Tier.publicManifest]⟩

/-- Claim C2: the listing consults exactly three tiers in strict
precedence order — the tiers consulted always form a prefix of
[index fetch, legacy scan, public manifest]; the index object is fetched
exactly once and first; the legacy scan runs iff the index object is
missing, unparsable, or the fetch failed; a parsed index answers the
listing at tier 1 (an empty index being a valid, non-error state); and
the public manifest is consulted only last, after both other tiers. -/
theorem C2_three_tier_listing {α : Type} (f : IndexFetch α)
    (scanOutcome manifest : Option (List α)) :
    ((listRemote f scanOutcome manifest).tiers.head? = some Tier.indexFetch ∧
     (listRemote f scanOutcome manifest).tiers.count Tier.indexFetch = 1) ∧
    (∃ rest, (listRemote f scanOutcome manifest).tiers ++ rest =
      [Tier.indexFetch, Tier.legacyScan, Tier.publicManifest]) ∧
    (Tier.legacyScan ∈ (listRemote f scanOutcome manifest).tiers ↔
      (f = IndexFetch.notFound ∨ f = IndexFetch.success none ∨
       f = IndexFetch.failure)) ∧
    (∀ es, f = IndexFetch.success (some es) →
      listRemote f scanOutcome manifest = ⟨es, [Tier.indexFetch]⟩) ∧
    (Tier.publicManifest ∈ (listRemote f scanOutcome manifest).tiers →
      (listRemote f scanOutcome manifest).tiers =
        [Tier.indexFetch, Tier.legacyScan, Tier.publicManifest]) := by
  rcases f with p | _ | _
  · rcases p with _ | es
    · rcases scanOutcome with _ | es' <;>
        simp [listRemote]
    · rcases scanOutcome with _ | es' <;>
        simp [listRemote]
  · rcases scanOutcome with _ | es' <;> simp [listRemote]
  · rcases scanOutcome with _ | es' <;> simp [listRemote]

/-- Claim C2, witness: with an unparsable index document and a successful
scan, the legacy-scan tier is consulted; with a parsed index it is not. -/
theorem C2_three_tier_listing_witness :
    Tier.legacyScan ∈
      (listRemote (IndexFetch.success (none : Option (List Nat)))
        (some [1]) none).tiers ∧
    listRemote (IndexFetch.success (some [2])) (some ([] : List Nat)) none =
      ⟨[2], [Tier.indexFetch]⟩ :=
  ⟨(C2_three_tier_listing (IndexFetch.success none) (some [1]) none).2.2.1.mpr
      (Or.inr (Or.inl rfl)),
   (C2_three_tier_listing (IndexFetch.success (some [2])) (some []) none).2.2.2.1
      [2] rfl⟩

/-- File contents of one cached asset directory: name → content pairs. -/
abbrev Files := List (Str × Str)

/-- The slice of local state the Migration Engine acts on for one asset:
the legacy copy, the bucket-scoped target copy, and the sidecar at the
target path. -/
structure MigrationView where
  legacyFiles : Option Files
  targetFiles : Option Files
  targetSidecar : Option SidecarRecord
deriving DecidableEq

/-- The sidecar record written for a bucket context when an asset is
materialized privately from it. -/
def sidecarFor (c : BucketContext) : SidecarRecord :=
  { s3BucketName := c.bucketName, s3EndpointUrl := c.endpointUrl,
    s3DataPfx := c.dataPfx, isPublic := false }

/-- Modelled from the spec: `migrate_dataset_to_bucket_storage` /
`migrate_one` (absent from the source files; behavior per spec §4.5) —
copies the legacy files to the Resolver-computed bucket-scoped target,
writes the BucketMetadataRecord sidecar, and does not delete the legacy
copy; a sidecar already present at the target makes the run a no-op. -/
def migrateOne (c : BucketContext) (s : MigrationView) : MigrationView :=
  if s.targetSidecar.isSome then s
  else { legacyFiles := s.legacyFiles, targetFiles := s.legacyFiles,
         targetSidecar := some (sidecarFor c) }

/-- Claim C5: `migrate_one` is idempotent and additive — running it twice
with the same target context equals running it once (one bucket-scoped
copy, not two); an already-migrated asset (sidecar present at the target)
is left untouched; and the legacy copy is never deleted by migration. -/
theorem C5_migrate_one_idempotent_additive (c : BucketContext)
    (s : MigrationView) :
    migrateOne c (migrateOne c s) = migrateOne c s ∧
    (s.targetSidecar.isSome → migrateOne c s = s) ∧
    (migrateOne c s).legacyFiles = s.legacyFiles := by
  by_cases h : s.targetSidecar.isSome
  · simp [migrateOne, h]
  · simp [migrateOne, h]

/-- Claim C5, witness: a concrete legacy asset with no sidecar at the
target; two runs equal one run and the legacy files survive. -/
theorem C5_migrate_one_idempotent_additive_witness :
    migrateOne ctx0 (migrateOne ctx0
      ⟨some [(strOf "data.json", strOf "x")], none, none⟩) =
      migrateOne ctx0 ⟨some [(strOf "data.json", strOf "x")], none, none⟩ ∧
    (migrateOne ctx0 ⟨some [(strOf "data.json", strOf "x")], none, none⟩).legacyFiles =
      some [(strOf "data.json", strOf "x")] :=
  ⟨(C5_migrate_one_idempotent_additive ctx0 _).1,
   (C5_migrate_one_idempotent_additive ctx0 _).2.2⟩

/-- Upsert into an association-list JSON document: replace the value of an
existing key, else append the new entry (read-modify-write of the whole
document, tolerant of the key not existing yet). -/
def upsert {β : Type} (k : Str) (v : β) : List (Str × β) → List (Str × β)
  | [] => [(k, v)]
  | (k', v') :: rest =>
      if k' = k then (k, v) :: rest else (k', v') :: upsert k v rest

lemma upsert_idem {β : Type} (k : Str) (v : β) (m : List (Str × β)) :
    upsert k v (upsert k v m) = upsert k v m := by
  induction m with
  | nil => simp [upsert]
  | cons p rest ih =>
    obtain ⟨k', v'⟩ := p
    by_cases h : k' = k
    · simp [upsert, h]
    · simp [upsert, h, ih]

lemma mem_upsert_self {β : Type} (k : Str) (v : β) (m : List (Str × β)) :
    (k, v) ∈ upsert k v m := by
  induction m with
  | nil => simp [upsert]
  | cons p rest ih =>
    obtain ⟨k', v'⟩ := p
    by_cases h : k' = k
    · simp [upsert, h]
    · simp [upsert, h]
      exact Or.inr ih

/-- Remote bucket state seen by the upload orchestrator: stored objects
(remote key prefix → files) and the private index document, whose entry
values have type `β`. -/
structure RemoteState (β : Type) where
  objects : List (Str × Files)
  index : List (Str × β)
deriving DecidableEq

/-- Modelled from the spec: `upload` / `sync_local_dataset_to_s3` (absent
from the source files; behavior per spec §4.7 and the README's
`sync-local-to-s3` description) — checks existence at the private remote
prefix, uploads the files only when absent, then upserts the private
index entry for the asset's composite key. -/
def upload {β : Type} (s : RemoteState β) (pfx : Str) (files : Files)
    (key : Str) (entry : β) : RemoteState β :=
  let objects :=
    if (s.objects.find? (fun p => decide (p.1 = pfx))).isSome then s.objects
    else (pfx, files) :: s.objects
  { objects := objects, index := upsert key entry s.index }

/-- Claim C6: upload is idempotent — it checks existence at the private
remote prefix and skips re-upload when present, so a second upload with
identical inputs leaves the remote objects and the index unchanged (no
duplicate archive, no duplicate index entry). -/
theorem C6_upload_idempotent {β : Type} (s : RemoteState β) (pfx : Str)
    (files : Files) (key : Str) (entry : β) :
    upload (upload s pfx files key entry) pfx files key entry =
      upload s pfx files key entry ∧
    ((s.objects.find? (fun p => decide (p.1 = pfx))).isSome →
      (upload s pfx files key entry).objects = s.objects) := by
  constructor
  · by_cases h : (s.objects.find? (fun p => decide (p.1 = pfx))).isSome
    · simp [upload, h, upsert_idem]
    · simp [upload, h, upsert_idem, List.find?]
  · intro h
    simp [upload, h]

/-- Claim C6, witness: a concrete remote state; when the prefix is already
present the objects are untouched, and a double upload equals a single
one. -/
theorem C6_upload_idempotent_witness :
    (upload (⟨[(strOf "p/d", [])], []⟩ : RemoteState Nat)
      (strOf "p/d") [] (strOf "k") 0).objects = [(strOf "p/d", [])] ∧
    upload (upload (⟨[], []⟩ : RemoteState Nat) (strOf "p/d") [] (strOf "k") 0)
        (strOf "p/d") [] (strOf "k") 0 =
      upload (⟨[], []⟩ : RemoteState Nat) (strOf "p/d") [] (strOf "k") 0 :=
  ⟨(C6_upload_idempotent ⟨[(strOf "p/d", [])], []⟩ (strOf "p/d") [] (strOf "k") 0).2
      (by decide),
   (C6_upload_idempotent ⟨[], []⟩ (strOf "p/d") [] (strOf "k") 0).1⟩

/-- Composite index keys: components joined by the `---` delimiter
(modelled from the S3 performance summary's index structure). -/
def compositeKey : List Str → Str
  | [] => []
  | [p] => p
  | p :: rest => p ++ strOf "---" ++ compositeKey rest

/-- Modelled from the spec: the private-index key written for an asset.
Per the in-repo S3 performance summary, the datasets index is keyed by
`dataset_id---config_name---revision` and the models index by
`model_id---revision` (two components — models carry no config). -/
def indexKeyOf (i : AssetIdentity) : Str :=
  match i.kind with
  | AssetKind.dataset => compositeKey [i.id, configSegment i, revisionSegment i]
  | AssetKind.model => compositeKey [i.id, revisionSegment i]

/-- Claim C4, counterexample: the index key of the concrete model
`modelId0` has only two components (`bert-base-uncased---main`) and cannot
be written as the claimed three-component key
`<id>---<config>---<revision>` for any config component. -/
theorem C4_model_key_two_components_counterexample :
    indexKeyOf modelId0 = strOf "bert-base-uncased---main" ∧
    ¬ ∃ cfg : Str, indexKeyOf modelId0 =
      modelId0.id ++ strOf "---" ++ cfg ++ strOf "---" ++ strOf "main" := by
  constructor
  · decide
  · rintro ⟨cfg, h⟩
    have hlen : (modelId0.id ++ strOf "---" ++ cfg ++ strOf "---" ++
        strOf "main").length = 24 := by
      rw [← h]; decide
    have h17 : (modelId0.id).length = 17 := by decide
    have h3 : (strOf "---").length = 3 := by decide
    have h4 : (strOf "main").length = 4 := by decide
    simp only [List.length_append, h17, h3, h4] at hlen
    omega

/-- Claim C4, amended: dataset index entries are keyed by the
three-component composite `<id>---<config>---<revision>`, while model
index entries are keyed by the two-component composite
`<id>---<revision>`; and the upload path maintains the index under
exactly that key. -/
theorem C4_index_key_shape {β : Type} (i : AssetIdentity)
    (s : RemoteState β) (pfx : Str) (files : Files) (entry : β) :
    (i.kind = AssetKind.dataset → indexKeyOf i =
      i.id ++ strOf "---" ++ configSegment i ++ strOf "---" ++
        revisionSegment i) ∧
    (i.kind = AssetKind.model → indexKeyOf i =
      i.id ++ strOf "---" ++ revisionSegment i) ∧
    (indexKeyOf i, entry) ∈ (upload s pfx files (indexKeyOf i) entry).index := by
  refine ⟨?_, ?_, ?_⟩
  · intro h
    simp [indexKeyOf, h, compositeKey, List.append_assoc]
  · intro h
    simp [indexKeyOf, h, compositeKey]
  · simpa [upload] using mem_upsert_self (indexKeyOf i) entry s.index

/-- Claim C4, witness: the amended key shapes evaluated at the concrete
dataset `datasetId0` and model `modelId0`, and membership of the written
entry in the index after a concrete upload. -/
theorem C4_index_key_shape_witness :
    indexKeyOf datasetId0 =
      datasetId0.id ++ strOf "---" ++ configSegment datasetId0 ++
        strOf "---" ++ revisionSegment datasetId0 ∧
    indexKeyOf modelId0 = modelId0.id ++ strOf "---" ++ revisionSegment modelId0 ∧
    (indexKeyOf modelId0, (0 : Nat)) ∈
      (upload (⟨[], []⟩ : RemoteState Nat) (strOf "p") [] (indexKeyOf modelId0)
        0).index :=
  ⟨(C4_index_key_shape datasetId0 (⟨[], []⟩ : RemoteState Nat) (strOf "p") [] 0).1 rfl,
   (C4_index_key_shape modelId0 (⟨[], []⟩ : RemoteState Nat) (strOf "p") [] 0).2.1 rfl,
   (C4_index_key_shape modelId0 (⟨[], []⟩ : RemoteState Nat) (strOf "p") [] 0).2.2⟩

/-- A raw metadata document as read back from disk or the object store:
either valid (it parses) or corrupt (unparsable JSON). -/
inductive RawDoc (α : Type)
  | valid (a : α)
  | corrupt
deriving DecidableEq

/-- Modelled from the spec: reading a sidecar/index/manifest document —
an absent file yields no record and no warning; a valid file yields its
record; a corrupt file yields no record and a logged warning (the `Bool`
component); no outcome is an error. -/
def readDoc {α : Type} : Option (RawDoc α) → Option α × Bool
  | none => (none, false)
  | some (RawDoc.valid a) => (some a, false)
  | some RawDoc.corrupt => (none, true)

/-- A discovered cached asset before its sidecar document is parsed. -/
structure CachedAssetRaw where
  ident : AssetIdentity
  layout : Layout
  sidecarDoc : Option (RawDoc SidecarRecord)
deriving DecidableEq

/-- Parsing the sidecar of a discovered asset: the scanner keeps whatever
record `readDoc` recovered. -/
def parseCached (a : CachedAssetRaw) : CachedAsset :=
  { ident := a.ident, layout := a.layout, sidecar := (readDoc a.sidecarDoc).1 }

/-- The Cache Scanner over raw discovered assets: parse each sidecar, then
scan. -/
def scanRaw (found : List CachedAssetRaw) (ctx : Option BucketContext)
    (filterByBucket : Bool) : List CachedAsset :=
  scan (found.map parseCached) ctx filterByBucket

/-- Claim C7: an unparsable (corrupt) document is treated exactly as if it
were absent and never aborts the calling operation — a corrupt sidecar
yields the same parsed record as an absent one plus a logged warning; a
scan over an asset with a corrupt sidecar equals the scan with that
sidecar absent; a listing whose index document is unparsable behaves
exactly as with a missing index (falling back, not failing); and a
missing/corrupt public manifest yields the empty listing rather than an
error. -/
theorem C7_corrupt_treated_as_absent {α : Type} (i : AssetIdentity)
    (lay : Layout) (rest : List CachedAssetRaw) (ctx : Option BucketContext)
    (fb : Bool) (scanOutcome manifest : Option (List α)) :
    ((readDoc (some (RawDoc.corrupt : RawDoc α))).1 =
       (readDoc (none : Option (RawDoc α))).1 ∧
     (readDoc (some (RawDoc.corrupt : RawDoc α))).2 = true) ∧
    scanRaw (⟨i, lay, some RawDoc.corrupt⟩ :: rest) ctx fb =
      scanRaw (⟨i, lay, none⟩ :: rest) ctx fb ∧
    listRemote (IndexFetch.success (none : Option (List α))) scanOutcome manifest =
      listRemote IndexFetch.notFound scanOutcome manifest ∧
    (listRemote (IndexFetch.failure : IndexFetch α) none none).entries = [] := by
  refine ⟨⟨rfl, rfl⟩, rfl, ?_, rfl⟩
  cases scanOutcome <;> rfl

/-- The `maxReconnectAttempts` field of `WebSocketClient`
(`hg_localization_ui/frontend/src/api/client.ts`). -/
def maxReconnectAttempts : Nat := 5

/-- The `reconnectDelay` field in milliseconds of `WebSocketClient`. -/
def reconnectDelay : Nat := 1000

/-- Model of `WebSocketClient.attemptReconnect`: while the attempt counter is below
the maximum, increment it and schedule `connect` after
`reconnectDelay * reconnectAttempts` milliseconds (the counter having just
been incremented); otherwise give up. Returns the new counter and the
scheduled delay, or `none` when reconnection stops. -/
def attemptReconnect (n : Nat) : Option (Nat × Nat) :=
  if n < maxReconnectAttempts then some (n + 1, reconnectDelay * (n + 1))
  else none

/-- The `onopen` handler of `WebSocketClient.connect` resets
`reconnectAttempts` to 0. -/
def onOpenCounter : Nat := 0

/-- The delays of successive reconnect attempts when every connection
fails, starting from counter `n`, observed through at most `fuel` close
events. -/
def failureRun : Nat → Nat → List Nat
  | 0, _ => []
  | fuel + 1, n =>
    match attemptReconnect n with
    | none => []
    | some (n', d) => d :: failureRun fuel n'

lemma failureRun_length : ∀ (fuel n : Nat),
    (failureRun fuel n).length ≤ maxReconnectAttempts - n := by
  intro fuel
  induction fuel with
  | zero => intro n; simp [failureRun]
  | succ k ih =>
    intro n
    by_cases h : n < maxReconnectAttempts
    · simp only [failureRun, attemptReconnect, if_pos h, List.length_cons]
      have := ih (n + 1)
      omega
    · simp [failureRun, attemptReconnect, h]

lemma failureRun_fuel_indep : ∀ (f1 f2 n : Nat),
    maxReconnectAttempts - n ≤ f1 → maxReconnectAttempts - n ≤ f2 →
    failureRun f1 n = failureRun f2 n := by
  intro f1
  induction f1 with
  | zero =>
    intro f2 n h1 _
    have hn : ¬ n < maxReconnectAttempts := by omega
    cases f2 with
    | zero => rfl
    | succ k => simp [failureRun, attemptReconnect, hn]
  | succ k ih =>
    intro f2 n h1 h2
    by_cases hn : n < maxReconnectAttempts
    · cases f2 with
      | zero => omega
      | succ k2 =>
        simp only [failureRun, attemptReconnect, if_pos hn]
        rw [ih k2 (n + 1) (by omega) (by omega)]
    · cases f2 with
      | zero => simp [failureRun, attemptReconnect, hn]
      | succ k2 => simp [failureRun, attemptReconnect, hn]

/-- Claim C9: after an unexpected close, `attemptReconnect` retries at most
`maxReconnectAttempts = 5` times — it fires exactly when the counter is
below 5, waits `reconnectDelay * attempt-number` before each retry, the
open handler resets the counter to 0, and from a fresh counter any
all-failure run terminates after exactly the delays
1000, 2000, 3000, 4000, 5000 ms, never exceeding 5 attempts. -/
theorem C9_reconnect_bounded (n fuel : Nat) (hfuel : maxReconnectAttempts ≤ fuel) :
    (attemptReconnect n = none ↔ maxReconnectAttempts ≤ n) ∧
    (n < maxReconnectAttempts →
      attemptReconnect n = some (n + 1, reconnectDelay * (n + 1))) ∧
    onOpenCounter = 0 ∧
    (failureRun fuel n).length ≤ maxReconnectAttempts - n ∧
    failureRun fuel 0 = [1000, 2000, 3000, 4000, 5000] := by
  refine ⟨?_, ?_, rfl, failureRun_length fuel n, ?_⟩
  · constructor
    · intro h
      by_contra hlt
      simp [attemptReconnect, Nat.lt_of_not_le hlt] at h
    · intro h
      simp [attemptReconnect, Nat.not_lt.mpr h]
  · intro h
    simp [attemptReconnect, h]
  · rw [failureRun_fuel_indep fuel maxReconnectAttempts 0 (by omega) (by omega)]
    decide

/-- Claim C9, witness: evaluated at counter 0 with 7 observed close
events — the attempt bound and the exact five-delay trace. -/
theorem C9_reconnect_bounded_witness :
    (failureRun 7 0).length ≤ maxReconnectAttempts - 0 ∧
    failureRun 7 0 = [1000, 2000, 3000, 4000, 5000] :=
  ⟨(C9_reconnect_bounded 0 7 (by decide)).2.2.2.1,
   (C9_reconnect_bounded 0 7 (by decide)).2.2.2.2⟩

/-- Bytes left unescaped by JS `encodeURIComponent`: ASCII letters,
digits, and `- _ . ! ~ * ' ( )`. -/
def isUnreservedByte (b : Nat) : Bool :=
  decide ((65 ≤ b ∧ b ≤ 90) ∨ (97 ≤ b ∧ b ≤ 122) ∨ (48 ≤ b ∧ b ≤ 57) ∨
    b = 45 ∨ b = 95 ∨ b = 46 ∨ b = 33 ∨ b = 126 ∨ b = 42 ∨ b = 39 ∨
    b = 40 ∨ b = 41)

/-- UTF-8 byte sequence of one Unicode scalar value. -/
def utf8EncodeChar (c : Char) : List Nat :=
  if c.toNat < 128 then [c.toNat]
  else if c.toNat < 2048 then [192 + c.toNat / 64, 128 + c.toNat % 64]
  else if c.toNat < 65536 then
    [224 + c.toNat / 4096, 128 + c.toNat / 64 % 64, 128 + c.toNat % 64]
  else
    [240 + c.toNat / 262144, 128 + c.toNat / 4096 % 64,
     128 + c.toNat / 64 % 64, 128 + c.toNat % 64]

/-- UTF-8 byte sequence of a string. -/
def utf8Encode (s : Str) : List Nat := s.flatMap utf8EncodeChar

/-- One byte as `encodeURIComponent` renders it: unreserved bytes pass
through; every other byte becomes a `%`-triple with uppercase hex. -/
def encByte (b : Nat) : Str :=
  if isUnreservedByte b then [Char.ofNat b]
  else ['%', hexDigit (b / 16), hexDigit (b % 16)]

/-- JS `encodeURIComponent` over the UTF-8 bytes of the string. -/
def encodeURIComponent (s : Str) : Str := (utf8Encode s).flatMap encByte

/-- Value of an uppercase hexadecimal digit. -/
def hexVal (c : Char) : Option Nat :=
  if 48 ≤ c.toNat ∧ c.toNat ≤ 57 then some (c.toNat - 48)
  else if 65 ≤ c.toNat ∧ c.toNat ≤ 70 then some (c.toNat - 55)
  else none

/-- Decodes a `%`-triple's two hex digits at the head of the tail. -/
def decodePercentTail : Str → Option (Nat × Str)
  | h :: l :: rest =>
    match hexVal h, hexVal l with
    | some hv, some lv => some (16 * hv + lv, rest)
    | _, _ => none
  | _ => none

/-- Inverse of the percent layer, one byte at a time: recover the leading
byte and the remaining characters. -/
def decodeByteOne : Str → Option (Nat × Str)
  | [] => none
  | c :: rest =>
    if c = '%' then decodePercentTail rest
    else some (c.toNat, rest)

/-- Extracts one UTF-8 continuation byte. -/
def takeCont : List Nat → Option (Nat × List Nat)
  | [] => none
  | b :: rest => if 128 ≤ b ∧ b < 192 then some (b - 128, rest) else none

/-- First step of UTF-8 decoding: one scalar value and the remaining
bytes. -/
def utf8DecodeOne : List Nat → Option (Nat × List Nat)
  | [] => none
  | b :: rest =>
    if b < 128 then some (b, rest)
    else if b < 192 then none
    else if b < 224 then
      (takeCont rest).bind (fun p => some ((b - 192) * 64 + p.1, p.2))
    else if b < 240 then
      (takeCont rest).bind (fun p => (takeCont p.2).bind (fun q =>
        some ((b - 224) * 4096 + p.1 * 64 + q.1, q.2)))
    else if b < 248 then
      (takeCont rest).bind (fun p => (takeCont p.2).bind (fun q =>
        (takeCont q.2).bind (fun r =>
          some ((b - 240) * 262144 + p.1 * 4096 + q.1 * 64 + r.1, r.2))))
    else none

lemma charOfNat_toNat_small : ∀ b < 128, (Char.ofNat b).toNat = b := by decide

lemma hexVal_hexDigit : ∀ n < 16, hexVal (hexDigit n) = some n := by decide

lemma hexDigit_ne_percent : ∀ n < 16, hexDigit n ≠ '%' := by decide

lemma hexDigit_ne_slash : ∀ n < 16, hexDigit n ≠ '/' := by decide

lemma unreserved_lt_128 {b : Nat} (h : isUnreservedByte b = true) : b < 128 := by
  simp only [isUnreservedByte, decide_eq_true_eq] at h
  omega

lemma unreserved_toNat {b : Nat} (h : isUnreservedByte b = true) :
    (Char.ofNat b).toNat = b :=
  charOfNat_toNat_small b (unreserved_lt_128 h)

lemma unreserved_ne_percent {b : Nat} (h : isUnreservedByte b = true) :
    Char.ofNat b ≠ '%' := by
  intro heq
  have h37 : b = 37 := by
    have := unreserved_toNat h
    rw [heq] at this
    exact this.symm
  subst h37
  simp [isUnreservedByte] at h

lemma unreserved_ne_slash {b : Nat} (h : isUnreservedByte b = true) :
    Char.ofNat b ≠ '/' := by
  intro heq
  have h47 : b = 47 := by
    have := unreserved_toNat h
    rw [heq] at this
    exact this.symm
  subst h47
  simp [isUnreservedByte] at h

lemma encByte_ne_nil (b : Nat) : encByte b ≠ [] := by
  unfold encByte
  split <;> simp

lemma decodeByteOne_encByte (b : Nat) (hb : b < 256) (rest : Str) :
    decodeByteOne (encByte b ++ rest) = some (b, rest) := by
  by_cases hu : isUnreservedByte b = true
  · have he : encByte b = [Char.ofNat b] := by simp [encByte, hu]
    rw [he, List.cons_append, List.nil_append]
    rw [decodeByteOne, if_neg (unreserved_ne_percent hu), unreserved_toNat hu]
  · have he : encByte b = ['%', hexDigit (b / 16), hexDigit (b % 16)] := by
      simp [encByte, hu]
    rw [he]
    simp only [List.cons_append, List.nil_append]
    rw [decodeByteOne, if_pos rfl]
    rw [decodePercentTail, hexVal_hexDigit (b / 16) (by omega),
      hexVal_hexDigit (b % 16) (by omega)]
    have hv : 16 * (b / 16) + b % 16 = b := by omega
    show some (16 * (b / 16) + b % 16, rest) = some (b, rest)
    rw [hv]

lemma flatMap_encByte_inj : ∀ (bs cs : List Nat),
    (∀ b ∈ bs, b < 256) → (∀ b ∈ cs, b < 256) →
    bs.flatMap encByte = cs.flatMap encByte → bs = cs := by
  intro bs
  induction bs with
  | nil =>
    intro cs _ _ h
    cases cs with
    | nil => rfl
    | cons c cs' =>
      exfalso
      simp only [List.flatMap_nil, List.flatMap_cons] at h
      exact encByte_ne_nil c (List.append_eq_nil.mp h.symm).1
  | cons b bs' ih =>
    intro cs hbs hcs h
    cases cs with
    | nil =>
      exfalso
      simp only [List.flatMap_nil, List.flatMap_cons] at h
      exact encByte_ne_nil b (List.append_eq_nil.mp h).1
    | cons c cs' =>
      simp only [List.flatMap_cons] at h
      have h1 := decodeByteOne_encByte b (hbs b (List.mem_cons_self b bs'))
        (bs'.flatMap encByte)
      have h2 := decodeByteOne_encByte c (hcs c (List.mem_cons_self c cs'))
        (cs'.flatMap encByte)
      rw [h, h2] at h1
      injection h1 with h1
      injection h1 with hbc htail
      rw [hbc, ih cs' (fun x hx => hbs x (List.mem_cons_of_mem b hx))
        (fun x hx => hcs x (List.mem_cons_of_mem c hx)) htail.symm]

lemma char_toNat_lt (c : Char) : c.toNat < 1114112 := by
  rcases c.valid with h | h
  · exact Nat.lt_trans h (by omega)
  · exact h.2

lemma utf8EncodeChar_lt_256 (c : Char) : ∀ b ∈ utf8EncodeChar c, b < 256 := by
  intro b hb
  have hv := char_toNat_lt c
  unfold utf8EncodeChar at hb
  split at hb
  · simp at hb; omega
  · split at hb
    · simp at hb
      rcases hb with h | h <;> omega
    · split at hb
      · simp at hb
        rcases hb with h | h | h <;> omega
      · simp at hb
        rcases hb with h | h | h | h <;> omega

lemma char_toNat_inj {c d : Char} (h : c.toNat = d.toNat) : c = d :=
  Char.ext (UInt32.ext h)

lemma utf8EncodeChar_ne_nil (c : Char) : utf8EncodeChar c ≠ [] := by
  unfold utf8EncodeChar
  split
  · simp
  · split
    · simp
    · split <;> simp

lemma utf8DecodeOne_encodeChar (c : Char) (rest : List Nat) :
    utf8DecodeOne (utf8EncodeChar c ++ rest) = some (c.toNat, rest) := by
  have hv := char_toNat_lt c
  by_cases h1 : c.toNat < 128
  · have he : utf8EncodeChar c = [c.toNat] := by simp [utf8EncodeChar, h1]
    rw [he, List.cons_append, List.nil_append, utf8DecodeOne, if_pos h1]
  · by_cases h2 : c.toNat < 2048
    · have he : utf8EncodeChar c = [192 + c.toNat / 64, 128 + c.toNat % 64] := by
        simp [utf8EncodeChar, h1, h2]
      rw [he]
      simp only [List.cons_append, List.nil_append]
      rw [utf8DecodeOne, if_neg (by omega), if_neg (by omega), if_pos (by omega)]
      rw [takeCont, if_pos (by omega)]
      show some ((192 + c.toNat / 64 - 192) * 64 + (128 + c.toNat % 64 - 128),
        rest) = some (c.toNat, rest)
      have harith : (192 + c.toNat / 64 - 192) * 64 +
          (128 + c.toNat % 64 - 128) = c.toNat := by omega
      rw [harith]
    · by_cases h3 : c.toNat < 65536
      · have he : utf8EncodeChar c = [224 + c.toNat / 4096,
            128 + c.toNat / 64 % 64, 128 + c.toNat % 64] := by
          simp [utf8EncodeChar, h1, h2, h3]
        rw [he]
        simp only [List.cons_append, List.nil_append]
        rw [utf8DecodeOne, if_neg (by omega), if_neg (by omega),
          if_neg (by omega), if_pos (by omega)]
        rw [takeCont, if_pos (by omega)]
        show (takeCont ((128 + c.toNat % 64) :: rest)).bind (fun q =>
          some ((224 + c.toNat / 4096 - 224) * 4096 +
            (128 + c.toNat / 64 % 64 - 128) * 64 + q.1, q.2)) =
          some (c.toNat, rest)
        rw [takeCont, if_pos (by omega)]
        show some ((224 + c.toNat / 4096 - 224) * 4096 +
          (128 + c.toNat / 64 % 64 - 128) * 64 +
          (128 + c.toNat % 64 - 128), rest) = some (c.toNat, rest)
        have harith : (224 + c.toNat / 4096 - 224) * 4096 +
            (128 + c.toNat / 64 % 64 - 128) * 64 +
            (128 + c.toNat % 64 - 128) = c.toNat := by omega
        rw [harith]
      · have he : utf8EncodeChar c = [240 + c.toNat / 262144,
            128 + c.toNat / 4096 % 64, 128 + c.toNat / 64 % 64,
            128 + c.toNat % 64] := by
          simp [utf8EncodeChar, h1, h2, h3]
        rw [he]
        simp only [List.cons_append, List.nil_append]
        rw [utf8DecodeOne, if_neg (by omega), if_neg (by omega),
          if_neg (by omega), if_neg (by omega), if_pos (by omega)]
        rw [takeCont, if_pos (by omega)]
        show (takeCont ((128 + c.toNat / 64 % 64) :: (128 + c.toNat % 64) ::
          rest)).bind (fun q => (takeCont q.2).bind (fun r =>
            some ((240 + c.toNat / 262144 - 240) * 262144 +
              (128 + c.toNat / 4096 % 64 - 128) * 4096 + q.1 * 64 + r.1,
              r.2))) = some (c.toNat, rest)
        rw [takeCont, if_pos (by omega)]
        show (takeCont ((128 + c.toNat % 64) :: rest)).bind (fun r =>
          some ((240 + c.toNat / 262144 - 240) * 262144 +
            (128 + c.toNat / 4096 % 64 - 128) * 4096 +
            (128 + c.toNat / 64 % 64 - 128) * 64 + r.1, r.2)) =
          some (c.toNat, rest)
        rw [takeCont, if_pos (by omega)]
        show some ((240 + c.toNat / 262144 - 240) * 262144 +
          (128 + c.toNat / 4096 % 64 - 128) * 4096 +
          (128 + c.toNat / 64 % 64 - 128) * 64 +
          (128 + c.toNat % 64 - 128), rest) = some (c.toNat, rest)
        have harith : (240 + c.toNat / 262144 - 240) * 262144 +
            (128 + c.toNat / 4096 % 64 - 128) * 4096 +
            (128 + c.toNat / 64 % 64 - 128) * 64 +
            (128 + c.toNat % 64 - 128) = c.toNat := by omega
        rw [harith]

lemma utf8Encode_inj : ∀ (s t : Str), utf8Encode s = utf8Encode t → s = t := by
  intro s
  induction s with
  | nil =>
    intro t h
    cases t with
    | nil => rfl
    | cons c t' =>
      exfalso
      simp only [utf8Encode, List.flatMap_nil, List.flatMap_cons] at h
      exact utf8EncodeChar_ne_nil c (List.append_eq_nil.mp h.symm).1
  | cons c s' ih =>
    intro t h
    cases t with
    | nil =>
      exfalso
      simp only [utf8Encode, List.flatMap_nil, List.flatMap_cons] at h
      exact utf8EncodeChar_ne_nil c (List.append_eq_nil.mp h).1
    | cons d t' =>
      simp only [utf8Encode, List.flatMap_cons] at h
      have h1 := utf8DecodeOne_encodeChar c (s'.flatMap utf8EncodeChar)
      have h2 := utf8DecodeOne_encodeChar d (t'.flatMap utf8EncodeChar)
      rw [h, h2] at h1
      injection h1 with h1
      injection h1 with hcd htail
      have hcd' : d = c := char_toNat_inj hcd
      subst hcd'
      rw [ih t' htail.symm]

lemma utf8Encode_lt_256 (s : Str) : ∀ b ∈ utf8Encode s, b < 256 := by
  intro b hb
  simp only [utf8Encode, List.mem_flatMap] at hb
  obtain ⟨c, _, hc⟩ := hb
  exact utf8EncodeChar_lt_256 c b hc

lemma encodeURIComponent_inj (a b : Str)
    (h : encodeURIComponent a = encodeURIComponent b) : a = b :=
  utf8Encode_inj a b (flatMap_encByte_inj (utf8Encode a) (utf8Encode b)
    (utf8Encode_lt_256 a) (utf8Encode_lt_256 b) h)

lemma slash_not_mem_encByte (b : Nat) (hb : b < 256) : '/' ∉ encByte b := by
  unfold encByte
  split
  · next hu =>
    intro hmem
    rw [List.mem_singleton] at hmem
    exact unreserved_ne_slash hu hmem.symm
  · intro hmem
    simp only [List.mem_cons, List.mem_singleton, List.not_mem_nil] at hmem
    rcases hmem with h | h | h | h
    · exact absurd h (by decide)
    · exact hexDigit_ne_slash (b / 16) (by omega) h.symm
    · exact hexDigit_ne_slash (b % 16) (by omega) h.symm
    · exact h

lemma slash_not_mem_enc (s : Str) : '/' ∉ encodeURIComponent s := by
  intro h
  simp only [encodeURIComponent, List.mem_flatMap] at h
  obtain ⟨b, hbmem, hb⟩ := h
  exact slash_not_mem_encByte b (utf8Encode_lt_256 s b hbmem) hb

/-- Route of `api.datasets.downloadZip` (path part, before the query). -/
def datasetDownloadRoute (id : Str) : Str :=
  strOf "/datasets/" ++ (encodeURIComponent id ++ strOf "/download")

/-- Route of `api.datasets.getPreview`. -/
def datasetPreviewRoute (id : Str) : Str :=
  strOf "/datasets/" ++ (encodeURIComponent id ++ strOf "/preview")

/-- Route of `api.datasets.getCard`. -/
def datasetCardRoute (id : Str) : Str :=
  strOf "/datasets/" ++ (encodeURIComponent id ++ strOf "/card")

/-- Route of `api.datasets.getExamples`. -/
def datasetExamplesRoute (id : Str) : Str :=
  strOf "/datasets/" ++ (encodeURIComponent id ++ strOf "/examples")

/-- Route of `api.models.getCard`. -/
def modelCardRoute (id : Str) : Str :=
  strOf "/models/" ++ (encodeURIComponent id ++ strOf "/card")

/-- Route of `api.models.getConfig`. -/
def modelConfigRoute (id : Str) : Str :=
  strOf "/models/" ++ (encodeURIComponent id ++ strOf "/config")

/-- Route of `api.models.getExamples`. -/
def modelExamplesRoute (id : Str) : Str :=
  strOf "/models/" ++ (encodeURIComponent id ++ strOf "/examples")

lemma route_inj (pre suf a b : Str)
    (h : pre ++ (encodeURIComponent a ++ suf) =
      pre ++ (encodeURIComponent b ++ suf)) : a = b :=
  encodeURIComponent_inj a b
    (List.append_cancel_right (List.append_cancel_left h))

/-- Claim C10: every per-asset API route of the frontend client passes the
asset id through `encodeURIComponent`, so the encoded id contributes no
raw `/` to the request path, and on each of the seven per-asset routes
(dataset downloadZip/getPreview/getCard/getExamples and model
getCard/getConfig/getExamples) two distinct ids never produce the same
route. -/
theorem C10_routes_encode_ids (id id₁ id₂ : Str) :
    '/' ∉ encodeURIComponent id ∧
    (datasetDownloadRoute id₁ = datasetDownloadRoute id₂ → id₁ = id₂) ∧
    (datasetPreviewRoute id₁ = datasetPreviewRoute id₂ → id₁ = id₂) ∧
    (datasetCardRoute id₁ = datasetCardRoute id₂ → id₁ = id₂) ∧
    (datasetExamplesRoute id₁ = datasetExamplesRoute id₂ → id₁ = id₂) ∧
    (modelCardRoute id₁ = modelCardRoute id₂ → id₁ = id₂) ∧
    (modelConfigRoute id₁ = modelConfigRoute id₂ → id₁ = id₂) ∧
    (modelExamplesRoute id₁ = modelExamplesRoute id₂ → id₁ = id₂) :=
  ⟨slash_not_mem_enc id,
   fun h => route_inj _ _ id₁ id₂ h, fun h => route_inj _ _ id₁ id₂ h,
   fun h => route_inj _ _ id₁ id₂ h, fun h => route_inj _ _ id₁ id₂ h,
   fun h => route_inj _ _ id₁ id₂ h, fun h => route_inj _ _ id₁ id₂ h,
   fun h => route_inj _ _ id₁ id₂ h⟩

/-- Claim C10, witness: evaluated at the slash-containing id `glue/mrpc`
and at concrete equal routes. -/
theorem C10_routes_encode_ids_witness :
    '/' ∉ encodeURIComponent (strOf "glue/mrpc") ∧ strOf "a" = strOf "a" :=
  ⟨(C10_routes_encode_ids (strOf "glue/mrpc") (strOf "a") (strOf "a")).1,
   (C10_routes_encode_ids (strOf "glue/mrpc") (strOf "a") (strOf "a")).2.1 rfl⟩

end HGLoc
